import Mathlib

/-!
Verification development for the image-resize pipeline repository
(src/api/src/main.rs and src/functions/src/main.rs).

The two Rust binaries are shallowly embedded as pure Lean functions.
External I/O (Azure blob store, Azure service bus queue, the image
crate) is represented by oracle inputs describing the outcome of each
external call, and by an explicit trace of the calls the code performs.
Bytes are modelled as natural numbers below 256; Unicode scalar values
as natural numbers.
-/

/-- The character with code 34, a double quote. -/
def quoteChar : Char := '\x22'

/-- The character with code 92, a backslash. -/
def backslashChar : Char := '\x5c'

/-- The character with code 123, an opening curly brace. -/
def lbraceChar : Char := '\x7b'

/-- The character with code 125, a closing curly brace. -/
def rbraceChar : Char := '\x7d'

/-- Whether a byte is a UTF-8 continuation byte (0x80..0xBF). -/
def isCont (b : Nat) : Bool := decide (0x80 ≤ b ∧ b < 0xC0)

/-- Valid second byte of a three-byte UTF-8 sequence whose first byte is b
(E0 excludes overlong encodings, ED excludes surrogates). -/
def cont3ok (b b1 : Nat) : Bool :=
  if b = 0xE0 then decide (0xA0 ≤ b1 ∧ b1 < 0xC0)
  else if b = 0xED then decide (0x80 ≤ b1 ∧ b1 < 0xA0)
  else isCont b1

/-- Valid second byte of a four-byte UTF-8 sequence whose first byte is b
(F0 excludes overlong encodings, F4 caps at U+10FFFF). -/
def cont4ok (b b1 : Nat) : Bool :=
  if b = 0xF0 then decide (0x90 ≤ b1 ∧ b1 < 0xC0)
  else if b = 0xF4 then decide (0x80 ≤ b1 ∧ b1 < 0x90)
  else isCont b1

/-- A Unicode scalar value: below 0x110000 and not a surrogate. -/
def isScalar (n : Nat) : Prop := n < 0xD800 ∨ (0xE000 ≤ n ∧ n < 0x110000)

instance (n : Nat) : Decidable (isScalar n) :=
  inferInstanceAs (Decidable (_ ∨ _))

/-- UTF-8 encoding of one scalar value (the std UTF-8 encoder). -/
def utf8EncodeChar (n : Nat) : List Nat :=
  if n < 0x80 then [n]
  else if n < 0x800 then [0xC0 + n / 64, 0x80 + n % 64]
  else if n < 0x10000 then [0xE0 + n / 4096, 0x80 + n / 64 % 64, 0x80 + n % 64]
  else [0xF0 + n / 262144, 0x80 + n / 4096 % 64, 0x80 + n / 64 % 64, 0x80 + n % 64]

/-- UTF-8 encoding of a sequence of scalar values. -/
def utf8Encode : List Nat → List Nat
  | [] => []
  | n :: t => utf8EncodeChar n ++ utf8Encode t

/-- Strict UTF-8 decoding of a byte sequence into scalar values; none on any
invalid, overlong, surrogate or truncated sequence.  Models the validation
performed by str conversion in Rust (std core UTF-8 validation). -/
def utf8DecodeStrict : List Nat → Option (List Nat)
  | [] => some []
  | b :: rest =>
    if b < 0x80 then Option.map (fun t => b :: t) (utf8DecodeStrict rest)
    else if b < 0xC2 then none
    else if b < 0xE0 then
      match rest with
      | b1 :: r =>
        if isCont b1 then
          Option.map (fun t => ((b - 0xC0) * 64 + (b1 - 0x80)) :: t) (utf8DecodeStrict r)
        else none
      | [] => none
    else if b < 0xF0 then
      match rest with
      | [] => none
      | b1 :: r =>
        match r with
        | [] => none
        | b2 :: r2 =>
          if cont3ok b b1 && isCont b2 then
            Option.map (fun t => ((b - 0xE0) * 4096 + (b1 - 0x80) * 64 + (b2 - 0x80)) :: t)
              (utf8DecodeStrict r2)
          else none
    else if b < 0xF5 then
      match rest with
      | [] => none
      | b1 :: r =>
        match r with
        | [] => none
        | b2 :: r2 =>
          match r2 with
          | [] => none
          | b3 :: r3 =>
            if cont4ok b b1 && isCont b2 && isCont b3 then
              Option.map
                (fun t =>
                  ((b - 0xF0) * 262144 + (b1 - 0x80) * 4096 + (b2 - 0x80) * 64 + (b3 - 0x80)) :: t)
                (utf8DecodeStrict r3)
            else none
    else none

/-- Lossy UTF-8 decoding: models String::from_utf8_lossy from the Rust std
library, as used at src/api/src/main.rs line 81.  Each maximal invalid
subpart (length given by the error_len of std UTF-8 validation) is replaced
by one U+FFFD replacement character; a truncated sequence at the end of the
input yields a single U+FFFD. -/
def utf8Lossy : List Nat → List Nat
  | [] => []
  | b :: rest =>
    if b < 0x80 then b :: utf8Lossy rest
    else if b < 0xC2 then 0xFFFD :: utf8Lossy rest
    else if b < 0xE0 then
      match rest with
      | [] => [0xFFFD]
      | b1 :: r =>
        if isCont b1 then ((b - 0xC0) * 64 + (b1 - 0x80)) :: utf8Lossy r
        else 0xFFFD :: utf8Lossy (b1 :: r)
    else if b < 0xF0 then
      match rest with
      | [] => [0xFFFD]
      | b1 :: r =>
        if cont3ok b b1 then
          match r with
          | [] => [0xFFFD]
          | b2 :: r2 =>
            if isCont b2 then ((b - 0xE0) * 4096 + (b1 - 0x80) * 64 + (b2 - 0x80)) :: utf8Lossy r2
            else 0xFFFD :: utf8Lossy (b2 :: r2)
        else 0xFFFD :: utf8Lossy (b1 :: r)
    else if b < 0xF5 then
      match rest with
      | [] => [0xFFFD]
      | b1 :: r =>
        if cont4ok b b1 then
          match r with
          | [] => [0xFFFD]
          | b2 :: r2 =>
            if isCont b2 then
              match r2 with
              | [] => [0xFFFD]
              | b3 :: r3 =>
                if isCont b3 then
                  ((b - 0xF0) * 262144 + (b1 - 0x80) * 4096 + (b2 - 0x80) * 64 + (b3 - 0x80))
                    :: utf8Lossy r3
                else 0xFFFD :: utf8Lossy (b3 :: r3)
            else 0xFFFD :: utf8Lossy (b2 :: r2)
        else 0xFFFD :: utf8Lossy (b1 :: r)
    else 0xFFFD :: utf8Lossy rest

/-- Lowercase hexadecimal digit character for a value below 16, as produced
by the serde_json control-character escape (format specifier 04x). -/
def hexDigitChar (n : Nat) : Char :=
  if n < 10 then Char.ofNat (48 + n) else Char.ofNat (87 + n)

/-- Value of a hexadecimal digit character, none for a non-digit. -/
def hexVal (c : Char) : Option Nat :=
  if 48 ≤ c.toNat ∧ c.toNat ≤ 57 then some (c.toNat - 48)
  else if 97 ≤ c.toNat ∧ c.toNat ≤ 102 then some (c.toNat - 87)
  else if 65 ≤ c.toNat ∧ c.toNat ≤ 70 then some (c.toNat - 55)
  else none

/-- JSON string escaping of one character, following the escape table of the
serde_json serializer: quote and backslash get two-character escapes, the
control characters 0x08 0x09 0x0A 0x0C 0x0D get their short escapes, the
remaining control characters below 0x20 get a lowercase u00xx escape, and
every other character is emitted unchanged. -/
def escapeChar (c : Char) : List Char :=
  if c = quoteChar then [backslashChar, quoteChar]
  else if c = backslashChar then [backslashChar, backslashChar]
  else if c.toNat = 8 then [backslashChar, 'b']
  else if c.toNat = 9 then [backslashChar, 't']
  else if c.toNat = 10 then [backslashChar, 'n']
  else if c.toNat = 12 then [backslashChar, 'f']
  else if c.toNat = 13 then [backslashChar, 'r']
  else if c.toNat < 32 then
    [backslashChar, 'u', '0', '0', hexDigitChar (c.toNat / 16), hexDigitChar (c.toNat % 16)]
  else [c]

/-- JSON string escaping of a character sequence (serde_json serializer). -/
def escapeStr : List Char → List Char
  | [] => []
  | c :: t => escapeChar c ++ escapeStr t

/-- Parser for the body of a JSON string: consumes characters up to and
including the closing quote, undoing the escapes of the serde_json escape
table, and returns the decoded content together with the characters after
the closing quote.  Models the string parsing of the serde_json
deserializer. -/
def unescapeBody : List Char → Option (List Char × List Char)
  | [] => none
  | c :: r =>
    if c = quoteChar then some ([], r)
    else if c = backslashChar then
      match r with
      | [] => none
      | e :: r2 =>
        if e = quoteChar then
          Option.map (fun p => (quoteChar :: p.1, p.2)) (unescapeBody r2)
        else if e = backslashChar then
          Option.map (fun p => (backslashChar :: p.1, p.2)) (unescapeBody r2)
        else if e = '/' then Option.map (fun p => ('/' :: p.1, p.2)) (unescapeBody r2)
        else if e = 'b' then Option.map (fun p => (Char.ofNat 8 :: p.1, p.2)) (unescapeBody r2)
        else if e = 't' then Option.map (fun p => (Char.ofNat 9 :: p.1, p.2)) (unescapeBody r2)
        else if e = 'n' then Option.map (fun p => (Char.ofNat 10 :: p.1, p.2)) (unescapeBody r2)
        else if e = 'f' then Option.map (fun p => (Char.ofNat 12 :: p.1, p.2)) (unescapeBody r2)
        else if e = 'r' then Option.map (fun p => (Char.ofNat 13 :: p.1, p.2)) (unescapeBody r2)
        else if e = 'u' then
          match r2 with
          | h1 :: h2 :: h3 :: h4 :: r3 =>
            Option.bind (hexVal h1) (fun a =>
              Option.bind (hexVal h2) (fun b =>
                Option.bind (hexVal h3) (fun c2 =>
                  Option.bind (hexVal h4) (fun d =>
                    Option.map
                      (fun p => (Char.ofNat (a * 4096 + b * 256 + c2 * 16 + d) :: p.1, p.2))
                      (unescapeBody r3)))))
          | _ => none
        else none
    else Option.map (fun p => (c :: p.1, p.2)) (unescapeBody r)

/-- Consume an expected literal prefix from the input; none when the input
does not start with it. -/
def dropLit : List Char → List Char → Option (List Char)
  | [], s => some s
  | l :: ls, c :: cs => if c = l then dropLit ls cs else none
  | _ :: _, [] => none

/-- The Image record of the ingress service (src/api/src/main.rs lines
16-20): the Job message, with the source object name and its container. -/
structure Image where
  filename : String
  image_container : String
deriving DecidableEq

/-- The ImageNode record of the worker service (src/functions/src/main.rs
lines 11-15), structurally identical to Image. -/
structure ImageNode where
  filename : String
  image_container : String
deriving DecidableEq

/-- The characters the serde_json serializer emits before the filename
field value: an opening brace, then the quoted key filename, a colon and
the opening quote of the value. -/
def openLit : List Char :=
  [lbraceChar, quoteChar] ++ "filename".data ++ [quoteChar, ':', quoteChar]

/-- The characters between the two field values: the comma, the quoted key
image_container, a colon and the opening quote of the second value. -/
def midLit : List Char :=
  [',', quoteChar] ++ "image_container".data ++ [quoteChar, ':', quoteChar]

/-- serde_json::to_string of an Image (src/api/src/main.rs line 107): the
two fields in declaration order, keys fixed, values escaped. -/
def serializeImage (i : Image) : List Char :=
  openLit ++ escapeStr i.filename.data ++ [quoteChar]
    ++ midLit ++ escapeStr i.image_container.data ++ [quoteChar, rbraceChar]

/-- serde_json::from_str for ImageNode (src/functions/src/main.rs line 47),
modelled on the grammar the serializer emits: the object with the two
string fields in declaration order, string values unescaped by
unescapeBody; none on any mismatch. -/
def deserializeImageNode (s : List Char) : Option ImageNode :=
  Option.bind (dropLit openLit s) (fun s1 =>
    Option.bind (unescapeBody s1) (fun p1 =>
      Option.bind (dropLit midLit p1.2) (fun s3 =>
        Option.bind (unescapeBody s3) (fun p2 =>
          if p2.2 = [rbraceChar] then some ⟨⟨p1.1⟩, ⟨p2.1⟩⟩ else none))))

/-- One uploaded multipart form part (the warp multipart Part, named
UploadPart here since Part is taken), as seen by upload_file: the field
name, the optional declared filename, and the raw payload bytes. -/
structure UploadPart where
  name : String
  filename : Option String
  payload : List Nat
deriving DecidableEq

/-- Outcome of one external call, supplied as an oracle input: the awaited
result an Azure client call returns. -/
inductive CallResult
  | ok
  | err
deriving DecidableEq

/-- One external call performed by the ingress service, with the outcome
its await returned: a blob-store put_block_blob (src/api/src/main.rs lines
59-65) or a queue send_message (lines 109-112). -/
inductive IEvent
  | storeWrite (container blobName : String) (bytes : List Nat) (contentType : String)
      (result : CallResult)
  | queuePublish (message : List Char) (result : CallResult)
deriving DecidableEq

/-- Reason the ingress request aborts: Option::unwrap on a missing filename
(src/api/src/main.rs lines 52 and 80) or the expect at line 112 when
send_message returns an error. -/
inductive AbortReason
  | missingFilename
  | publishFailed
deriving DecidableEq

/-- Processing of one part inside the closure of upload_file
(src/api/src/main.rs lines 38-83).  Inputs: the configured container, the
part, and the oracle results of the blob write and the queue publish.
Output: the trace of external calls made for this part, and either the
tuple (name, filename, lossily decoded payload) pushed into the response,
or the reason processing aborted.  Mirrors the source: an empty payload
skips the write and the publish; a non-empty payload unwraps the filename,
writes the blob, matches the write result only to log it, and then always
constructs the Image and publishes it; the publish expect aborts on a
publish error; the response tuple unwraps the filename again. -/
def processPart (container : String) (p : UploadPart) (writeRes pubRes : CallResult) :
    List IEvent × Except AbortReason (String × String × List Nat) :=
  if p.payload.isEmpty then
    match p.filename with
    | none => ([], Except.error AbortReason.missingFilename)
    | some f => ([], Except.ok (p.name, f, utf8Lossy p.payload))
  else
    match p.filename with
    | none => ([], Except.error AbortReason.missingFilename)
    | some f =>
      let writeEv := IEvent.storeWrite container f p.payload "image/jpeg" writeRes
      let msg := serializeImage ⟨f, container⟩
      let pubEv := IEvent.queuePublish msg pubRes
      match pubRes with
      | CallResult.err => ([writeEv, pubEv], Except.error AbortReason.publishFailed)
      | CallResult.ok => ([writeEv, pubEv], Except.ok (p.name, f, utf8Lossy p.payload))

/-- The upload_file handler (src/api/src/main.rs lines 36-89): the parts of
the form are processed in order, each with the oracle results of its two
external calls; try_collect accumulates the per-part tuples, and an abort
(a panic inside the closure) ends the request, leaving later parts
unprocessed.  Returns the full trace of external calls and either the
collected tuples or the abort reason. -/
def upload_file (container : String) :
    List (UploadPart × CallResult × CallResult) →
      List IEvent × Except AbortReason (List (String × String × List Nat))
  | [] => ([], Except.ok [])
  | (p, w, q) :: rest =>
    match processPart container p w q with
    | (evs, Except.error a) => (evs, Except.error a)
    | (evs, Except.ok t) =>
      match upload_file container rest with
      | (evs2, Except.error a) => (evs ++ evs2, Except.error a)
      | (evs2, Except.ok ts) => (evs ++ evs2, Except.ok (t :: ts))

/-- One external call performed by the worker service: opening the chunked
read of the source blob (src/functions/src/main.rs lines 69-74) or the
put_block_blob of the resized result (lines 91-94). -/
inductive WEvent
  | storeRead (container blobName : String)
  | storeWrite (container blobName : String) (bytes : List Nat) (contentType : String)
deriving DecidableEq

/-- Observable outcome of one worker cycle: Ok(()) returned from main, the
Err return produced by the question-mark operator on a failed read chunk,
or a panic from an expect or unwrap. -/
inductive WOutcome
  | ok
  | errRead
  | aborted (msg : String)
deriving DecidableEq

/-- Drain the chunked blob read stream (src/functions/src/main.rs lines
70-74): chunks are concatenated in order; the question-mark operator on the
first failed chunk aborts the loop with that error. -/
def drainChunks : List (Except Unit (List Nat)) → Except Unit (List Nat)
  | [] => Except.ok []
  | Except.error e :: _ => Except.error e
  | Except.ok c :: rest =>
    match drainChunks rest with
    | Except.error e => Except.error e
    | Except.ok bs => Except.ok (c ++ bs)

/-- The worker cycle after a successful receive (src/functions/src/main.rs
lines 39-105).  Inputs: the received message text, the oracle list of read
chunks for the source blob, an oracle for the composite image pipeline
(load_from_memory, resize to 100x100, JPEG re-encode; none models a decode
panic), and the oracle result of the derived-object write.  Output: the
trace of object-store calls and the cycle outcome.  Mirrors the source: an
empty message returns Ok at once; a message that does not deserialize logs
and returns Ok; otherwise the source blob at (image_container, filename) is
streamed, a failed chunk returns the read error, the resized bytes are
written under the name resized_ prepended to the filename, and a failed
write panics. -/
def workerCycle (received : List Char) (chunks : List (Except Unit (List Nat)))
    (imagePipeline : List Nat → Option (List Nat)) (writeRes : CallResult) :
    List WEvent × WOutcome :=
  if received.isEmpty then ([], WOutcome.ok)
  else
    match deserializeImageNode received with
    | none => ([], WOutcome.ok)
    | some image =>
      let readEv := WEvent.storeRead image.image_container image.filename
      match drainChunks chunks with
      | Except.error _ => ([readEv], WOutcome.errRead)
      | Except.ok bytes =>
        match imagePipeline bytes with
        | none => ([readEv], WOutcome.aborted "Failed to load image")
        | some resized =>
          let writeEv := WEvent.storeWrite image.image_container
            ("resized_" ++ image.filename) resized "image/jpeg"
          match writeRes with
          | CallResult.err => ([readEv, writeEv], WOutcome.aborted "Failed to upload blob")
          | CallResult.ok => ([readEv, writeEv], WOutcome.ok)

/-- The worker main function (src/functions/src/main.rs lines 18-106),
including the expect on the receive_and_delete_message call itself: a
failed receive panics before any object-store call; a successful receive
hands the message text to the cycle. -/
def workerMain (receiveRes : Except Unit (List Char))
    (chunks : List (Except Unit (List Nat)))
    (imagePipeline : List Nat → Option (List Nat)) (writeRes : CallResult) :
    List WEvent × WOutcome :=
  match receiveRes with
  | Except.error _ => ([], WOutcome.aborted "Failed to receive message")
  | Except.ok received => workerCycle received chunks imagePipeline writeRes

/-! ## Helper lemmas: JSON string escaping round-trip -/

theorem dropLit_append (l s : List Char) : dropLit l (l ++ s) = some s := by
  induction l with
  | nil => rfl
  | cons c t ih => simpa [dropLit] using ih

theorem hexVal_hexDigitChar : ∀ n : Fin 16, hexVal (hexDigitChar n.val) = some n.val := by
  decide

theorem unescapeBody_escapeChar (c : Char) (t : List Char) :
    unescapeBody (escapeChar c ++ t) = Option.map (fun p => (c :: p.1, p.2)) (unescapeBody t) := by
  by_cases h1 : c = quoteChar
  . subst h1
    rw [show escapeChar quoteChar ++ t = backslashChar :: quoteChar :: t from rfl]
    conv_lhs => unfold unescapeBody
    simp +decide
  . by_cases h2 : c = backslashChar
    . subst h2
      rw [escapeChar, if_neg h1, if_pos rfl]
      rw [show ([backslashChar, backslashChar] ++ t : List Char)
          = backslashChar :: backslashChar :: t from rfl]
      conv_lhs => unfold unescapeBody
      simp +decide
    . by_cases h3 : c.toNat = 8
      . have hc : Char.ofNat 8 = c := by rw [← h3]; exact Char.ofNat_toNat c
        rw [escapeChar, if_neg h1, if_neg h2, if_pos h3, ← hc]
        rw [show ([backslashChar, 'b'] ++ t : List Char) = backslashChar :: 'b' :: t from rfl]
        conv_lhs => unfold unescapeBody
        simp +decide
      . by_cases h4 : c.toNat = 9
        . have hc : Char.ofNat 9 = c := by rw [← h4]; exact Char.ofNat_toNat c
          rw [escapeChar, if_neg h1, if_neg h2, if_neg h3, if_pos h4, ← hc]
          rw [show ([backslashChar, 't'] ++ t : List Char) = backslashChar :: 't' :: t from rfl]
          conv_lhs => unfold unescapeBody
          simp +decide
        . by_cases h5 : c.toNat = 10
          . have hc : Char.ofNat 10 = c := by rw [← h5]; exact Char.ofNat_toNat c
            rw [escapeChar, if_neg h1, if_neg h2, if_neg h3, if_neg h4, if_pos h5, ← hc]
            rw [show ([backslashChar, 'n'] ++ t : List Char) = backslashChar :: 'n' :: t from rfl]
            conv_lhs => unfold unescapeBody
            simp +decide
          . by_cases h6 : c.toNat = 12
            . have hc : Char.ofNat 12 = c := by rw [← h6]; exact Char.ofNat_toNat c
              rw [escapeChar, if_neg h1, if_neg h2, if_neg h3, if_neg h4, if_neg h5, if_pos h6,
                ← hc]
              rw [show ([backslashChar, 'f'] ++ t : List Char) = backslashChar :: 'f' :: t from rfl]
              conv_lhs => unfold unescapeBody
              simp +decide
            . by_cases h7 : c.toNat = 13
              . have hc : Char.ofNat 13 = c := by rw [← h7]; exact Char.ofNat_toNat c
                rw [escapeChar, if_neg h1, if_neg h2, if_neg h3, if_neg h4, if_neg h5, if_neg h6,
                  if_pos h7, ← hc]
                rw [show ([backslashChar, 'r'] ++ t : List Char)
                    = backslashChar :: 'r' :: t from rfl]
                conv_lhs => unfold unescapeBody
                simp +decide
              . by_cases h8 : c.toNat < 32
                . have e3 : hexVal (hexDigitChar (c.toNat / 16)) = some (c.toNat / 16) :=
                    hexVal_hexDigitChar ⟨c.toNat / 16, by omega⟩
                  have e4 : hexVal (hexDigitChar (c.toNat % 16)) = some (c.toNat % 16) :=
                    hexVal_hexDigitChar ⟨c.toNat % 16, by omega⟩
                  have hchar : Char.ofNat (c.toNat / 16 * 16 + c.toNat % 16) = c := by
                    rw [show c.toNat / 16 * 16 + c.toNat % 16 = c.toNat from by omega]
                    exact Char.ofNat_toNat c
                  rw [escapeChar, if_neg h1, if_neg h2, if_neg h3, if_neg h4, if_neg h5, if_neg h6,
                    if_neg h7, if_pos h8]
                  rw [show ([backslashChar, 'u', '0', '0', hexDigitChar (c.toNat / 16),
                        hexDigitChar (c.toNat % 16)] ++ t : List Char)
                      = backslashChar :: 'u' :: '0' :: '0' :: hexDigitChar (c.toNat / 16) ::
                        hexDigitChar (c.toNat % 16) :: t from rfl]
                  conv_lhs => unfold unescapeBody
                  simp +decide
                  rw [show hexVal '0' = some 0 from by decide, e3, e4]
                  simp
                  rw [hchar]
                . rw [escapeChar, if_neg h1, if_neg h2, if_neg h3, if_neg h4, if_neg h5, if_neg h6,
                    if_neg h7, if_neg h8]
                  rw [show ([c] ++ t : List Char) = c :: t from rfl]
                  conv_lhs => unfold unescapeBody
                  simp [h1, h2]

theorem unescapeBody_escapeStr (s t : List Char) :
    unescapeBody (escapeStr s ++ quoteChar :: t) = some (s, t) := by
  induction s with
  | nil =>
    show unescapeBody (quoteChar :: t) = some ([], t)
    unfold unescapeBody
    simp +decide
  | cons c s ih =>
    simp only [escapeStr, List.append_assoc]
    rw [unescapeBody_escapeChar, ih]
    rfl

/-- Claim C4: serializing a Job with the ingress serializer and
deserializing the resulting text with the worker deserializer yields a Job
equal field-for-field to the original, for every pair of string fields. -/
theorem job_serialization_round_trip (img : Image) :
    deserializeImageNode (serializeImage img) = some ⟨img.filename, img.image_container⟩ := by
  have shape : serializeImage img =
      openLit ++ (escapeStr img.filename.data ++ (quoteChar ::
        (midLit ++ (escapeStr img.image_container.data ++ (quoteChar :: [rbraceChar]))))) := by
    simp [serializeImage]
  rw [deserializeImageNode, shape, dropLit_append]
  simp [unescapeBody_escapeStr, dropLit_append]

/-- Claim C1 (refuting evaluation): a non-empty part whose object-store
write fails still gets its Job published.  The trace of the handler on one
part with a failed write and a successful publish contains the publish
event even though the write result is an error, and the request even
reports success. -/
theorem publish_despite_failed_write :
    upload_file "images" [(⟨"file", some "cat.png", [255]⟩, CallResult.err, CallResult.ok)] =
      ([IEvent.storeWrite "images" "cat.png" [255] "image/jpeg" CallResult.err,
        IEvent.queuePublish (serializeImage ⟨"cat.png", "images"⟩) CallResult.ok],
       Except.ok [("file", "cat.png", [0xFFFD])]) := rfl

/-- Claim C2 (counterexample): a missing filename in the first part aborts
the whole request: the second part is never attempted (no events at all)
and the response enumerates no per-part outcome. -/
theorem missing_filename_aborts_batch :
    upload_file "images"
      [(⟨"a", none, [1]⟩, CallResult.ok, CallResult.ok),
       (⟨"b", some "b.png", [2]⟩, CallResult.ok, CallResult.ok)] =
      ([], Except.error AbortReason.missingFilename) := rfl

/-- Claim C2 (amended): if every part declares a filename and every queue
publish succeeds, then whatever the store-write results are, every part is
attempted (each non-empty part's write event is in the trace) and the
response enumerates a per-part tuple for every part. -/
theorem upload_isolates_write_failures (container : String) :
    ∀ parts : List (UploadPart × CallResult × CallResult),
    (∀ x ∈ parts, (x.1.filename).isSome ∧ x.2.2 = CallResult.ok) →
    (upload_file container parts).2 =
      Except.ok (parts.map fun x => (x.1.name, (x.1.filename).getD "", utf8Lossy x.1.payload)) ∧
    ∀ x ∈ parts, x.1.payload.isEmpty = false →
      IEvent.storeWrite container ((x.1.filename).getD "") x.1.payload "image/jpeg" x.2.1
        ∈ (upload_file container parts).1 := by
  intro parts
  induction parts with
  | nil =>
    intro h
    exact ⟨rfl, by intro x hx; cases hx⟩
  | cons hd tl ih =>
    intro h
    obtain ⟨p, w, q⟩ := hd
    obtain ⟨hsome, hq⟩ := h (p, w, q) (List.mem_cons_self _ _)
    dsimp only at hsome hq
    subst hq
    obtain ⟨f, hf⟩ := Option.isSome_iff_exists.mp hsome
    obtain ⟨htl1, htl2⟩ := ih (fun x hx => h x (List.mem_cons_of_mem _ hx))
    have hpp : processPart container p w CallResult.ok =
        ((if p.payload.isEmpty then []
          else [IEvent.storeWrite container f p.payload "image/jpeg" w,
            IEvent.queuePublish (serializeImage ⟨f, container⟩) CallResult.ok]),
         Except.ok (p.name, f, utf8Lossy p.payload)) := by
      by_cases hemp : p.payload.isEmpty <;> simp [processPart, hemp, hf]
    have hfst : (upload_file container ((p, w, CallResult.ok) :: tl)).1 =
        (if p.payload.isEmpty then []
         else [IEvent.storeWrite container f p.payload "image/jpeg" w,
           IEvent.queuePublish (serializeImage ⟨f, container⟩) CallResult.ok])
          ++ (upload_file container tl).1 := by
      rcases hup : upload_file container tl with ⟨evs2, res2⟩
      rw [hup] at htl1
      dsimp only at htl1
      subst htl1
      simp [upload_file, hpp, hup]
    have hsnd : (upload_file container ((p, w, CallResult.ok) :: tl)).2 =
        Except.ok (((p, w, CallResult.ok) :: tl).map
          fun x => (x.1.name, (x.1.filename).getD "", utf8Lossy x.1.payload)) := by
      rcases hup : upload_file container tl with ⟨evs2, res2⟩
      rw [hup] at htl1
      dsimp only at htl1
      subst htl1
      simp [upload_file, hpp, hup, hf]
    refine ⟨hsnd, ?_⟩
    intro x hx hne
    rw [hfst]
    rcases List.mem_cons.mp hx with hx1 | hx2
    . subst hx1
      dsimp only at hne ⊢
      rw [hne]
      simp [hf]
    . exact List.mem_append_right _ (htl2 x hx2 hne)

/-- Claim C2 (amended, witness): two parts with filenames, the first with a
failed store write; both parts are attempted and both outcomes appear. -/
theorem upload_isolates_write_failures_witness :
    (upload_file "images" [(⟨"a", some "a.png", [1]⟩, CallResult.err, CallResult.ok),
        (⟨"b", some "b.png", [2]⟩, CallResult.ok, CallResult.ok)]).2 =
      Except.ok ([((⟨"a", some "a.png", [1]⟩ : UploadPart), CallResult.err, CallResult.ok),
        ((⟨"b", some "b.png", [2]⟩ : UploadPart), CallResult.ok, CallResult.ok)].map
          fun x => (x.1.name, (x.1.filename).getD "", utf8Lossy x.1.payload)) ∧
    ∀ x ∈ [((⟨"a", some "a.png", [1]⟩ : UploadPart), CallResult.err, CallResult.ok),
        ((⟨"b", some "b.png", [2]⟩ : UploadPart), CallResult.ok, CallResult.ok)],
      x.1.payload.isEmpty = false →
      IEvent.storeWrite "images" ((x.1.filename).getD "") x.1.payload "image/jpeg" x.2.1
        ∈ (upload_file "images" [(⟨"a", some "a.png", [1]⟩, CallResult.err, CallResult.ok),
            (⟨"b", some "b.png", [2]⟩, CallResult.ok, CallResult.ok)]).1 :=
  upload_isolates_write_failures "images"
    [(⟨"a", some "a.png", [1]⟩, CallResult.err, CallResult.ok),
     (⟨"b", some "b.png", [2]⟩, CallResult.ok, CallResult.ok)]
    (by decide)

/-- Claim C5 (counterexample): an empty-payload part that declares no
filename does not pass through as metadata: the request aborts on the
unwrap in the response construction, so the part appears in no response. -/
theorem empty_part_without_filename_aborts :
    upload_file "images" [(⟨"file", none, []⟩, CallResult.ok, CallResult.ok)] =
      ([], Except.error AbortReason.missingFilename) := rfl

/-- Claim C5 (amended): an empty-payload part causes no object-store write
and no queue publish; if it declares a filename it passes through into the
response as (name, filename, empty payload), and otherwise the request
aborts with the missing-filename failure. -/
theorem empty_part_no_write_no_publish (container : String) (p : UploadPart)
    (w q : CallResult) (hpl : p.payload = []) :
    processPart container p w q =
      ([], match p.filename with
        | none => Except.error AbortReason.missingFilename
        | some f => Except.ok (p.name, f, [])) := by
  cases hf : p.filename <;> simp [processPart, hpl, hf, utf8Lossy]

/-- Claim C5 (amended, witness). -/
theorem empty_part_no_write_no_publish_witness :
    processPart "images" ⟨"file", some "img.png", []⟩ CallResult.ok CallResult.ok =
      ([], Except.ok ("file", "img.png", [])) :=
  empty_part_no_write_no_publish "images" ⟨"file", some "img.png", []⟩
    CallResult.ok CallResult.ok rfl

/-- Claim C6: if the destructive receive returns no message (the empty
string), the worker cycle ends with the Ok outcome and performs no
object-store call at all, whatever the other oracle inputs are. -/
theorem worker_no_message_noop (chunks : List (Except Unit (List Nat)))
    (imagePipeline : List Nat → Option (List Nat)) (writeRes : CallResult) :
    workerMain (Except.ok []) chunks imagePipeline writeRes = ([], WOutcome.ok) := rfl

/-- Claim C7: when the consumed message deserializes to a Job but the
chunked read of the source object fails (object missing or any chunk
error), the cycle ends with the reported read error and the trace contains
only the read, never a derived-object write. -/
theorem worker_read_error_no_write (received : List Char)
    (chunks : List (Except Unit (List Nat)))
    (imagePipeline : List Nat → Option (List Nat)) (writeRes : CallResult) (img : ImageNode)
    (hdes : deserializeImageNode received = some img)
    (hdr : drainChunks chunks = Except.error ()) :
    workerMain (Except.ok received) chunks imagePipeline writeRes =
      ([WEvent.storeRead img.image_container img.filename], WOutcome.errRead) := by
  have hne : received.isEmpty = false := by
    cases hr : received with
    | nil => rw [hr] at hdes; cases hdes
    | cons c t => rfl
  simp [workerMain, workerCycle, hne, hdes, hdr]

/-- Claim C7 (witness): a Job for cat.png whose first read chunk fails. -/
theorem worker_read_error_no_write_witness :
    workerMain (Except.ok (serializeImage ⟨"cat.png", "images"⟩)) [Except.error ()]
        (fun _ => none) CallResult.ok =
      ([WEvent.storeRead (ImageNode.image_container ⟨"cat.png", "images"⟩)
          (ImageNode.filename ⟨"cat.png", "images"⟩)], WOutcome.errRead) :=
  worker_read_error_no_write (serializeImage ⟨"cat.png", "images"⟩) [Except.error ()]
    (fun _ => none) CallResult.ok ⟨"cat.png", "images"⟩ (by decide) rfl

/-- Claim C8: a non-empty part with no declared filename fails with the
missing-filename abort, before any object write or publish. -/
theorem missing_filename_part_fails (container : String) (p : UploadPart)
    (w q : CallResult) (hne : p.payload ≠ []) (hf : p.filename = none) :
    processPart container p w q = ([], Except.error AbortReason.missingFilename) := by
  have hemp : p.payload.isEmpty = false := by
    cases hp : p.payload with
    | nil => exact absurd hp hne
    | cons b t => rfl
  simp [processPart, hemp, hf]

/-- Claim C8 (witness). -/
theorem missing_filename_part_fails_witness :
    processPart "images" ⟨"file", none, [1]⟩ CallResult.ok CallResult.ok =
      ([], Except.error AbortReason.missingFilename) :=
  missing_filename_part_fails "images" ⟨"file", none, [1]⟩ CallResult.ok CallResult.ok
    (by decide) rfl

/-- Claim C10: the per-part response construction unconditionally unwraps
the declared filename: a part without one always aborts processing (first
conjunct), so a request only completes when every part, empty-payload parts
included, carries a filename (second conjunct). -/
theorem response_requires_filename :
    (∀ (container : String) (p : UploadPart) (w q : CallResult), p.filename = none →
      (processPart container p w q).2 = Except.error AbortReason.missingFilename) ∧
    ∀ (container : String) (parts : List (UploadPart × CallResult × CallResult))
      (ts : List (String × String × List Nat)),
      (upload_file container parts).2 = Except.ok ts →
      ∀ x ∈ parts, (x.1.filename).isSome := by
  constructor
  . intro container p w q hf
    by_cases hemp : p.payload.isEmpty <;> simp [processPart, hemp, hf]
  . intro container parts
    induction parts with
    | nil => intro ts h x hx; cases hx
    | cons hd tl ih =>
      intro ts h x hx
      obtain ⟨p, w, q⟩ := hd
      rcases hpp : processPart container p w q with ⟨evs, res⟩
      cases res with
      | error a => rw [upload_file, hpp] at h; cases h
      | ok t =>
        have hsome : (p.filename).isSome := by
          cases hfn : p.filename with
          | none =>
            by_cases hemp : p.payload.isEmpty <;>
              simp [processPart, hemp, hfn] at hpp
          | some f => rfl
        rcases List.mem_cons.mp hx with hx1 | hx2
        . subst hx1; exact hsome
        . rcases hup : upload_file container tl with ⟨evs2, res2⟩
          cases res2 with
          | error a => rw [upload_file, hpp, hup] at h; cases h
          | ok ts2 =>
            have : (upload_file container tl).2 = Except.ok ts2 := by rw [hup]
            exact ih ts2 this x hx2

/-- Claim C10 (witness): an empty-payload part without a filename aborts. -/
theorem response_requires_filename_witness :
    (processPart "images" ⟨"file", none, []⟩ CallResult.ok CallResult.ok).2 =
      Except.error AbortReason.missingFilename :=
  response_requires_filename.1 "images" ⟨"file", none, []⟩ CallResult.ok CallResult.ok rfl

/-- Claim C3: every derived-object write the worker performs stores under
the container of the consumed Job and under the name obtained by prepending
resized_ to the Job's source object name: the derived name is a pure
function of the source name. -/
theorem worker_derived_name (received : List Char)
    (chunks : List (Except Unit (List Nat)))
    (imagePipeline : List Nat → Option (List Nat)) (writeRes : CallResult) (img : ImageNode)
    (c n : String) (bs : List Nat) (ct : String)
    (hdes : deserializeImageNode received = some img)
    (hmem : WEvent.storeWrite c n bs ct ∈ (workerMain (Except.ok received) chunks
      imagePipeline writeRes).1) :
    c = img.image_container ∧ n = "resized_" ++ img.filename := by
  have hne : received.isEmpty = false := by
    cases hr : received with
    | nil => rw [hr] at hdes; cases hdes
    | cons ch t => rfl
  simp only [workerMain, workerCycle, hne, hdes] at hmem
  rcases hdr : drainChunks chunks with e | bytes
  . simp [hdr] at hmem
  . rcases hip : imagePipeline bytes with _ | resized
    . simp [hdr, hip] at hmem
    . cases writeRes with
      | ok =>
        simp [hdr, hip] at hmem
        exact ⟨hmem.1, hmem.2.1⟩
      | err =>
        simp [hdr, hip] at hmem
        exact ⟨hmem.1, hmem.2.1⟩

/-- Claim C3 (witness): a successful cycle on a Job for cat.png writes the
derived object under resized_cat.png in the Job's container. -/
theorem worker_derived_name_witness :
    "images" = ImageNode.image_container ⟨"cat.png", "images"⟩ ∧
    "resized_cat.png" = "resized_" ++ ImageNode.filename ⟨"cat.png", "images"⟩ :=
  worker_derived_name (serializeImage ⟨"cat.png", "images"⟩) [Except.ok [7]]
    (fun _ => some [9]) CallResult.ok ⟨"cat.png", "images"⟩ "images" "resized_cat.png"
    [9] "image/jpeg" (by decide) (by decide)

/-! ## Helper lemmas: UTF-8 round-trip -/

theorem utf8DecodeStrict_encodeChar (n : Nat) (rest : List Nat) (hs : isScalar n) :
    utf8DecodeStrict (utf8EncodeChar n ++ rest)
      = Option.map (fun t => n :: t) (utf8DecodeStrict rest) := by
  unfold isScalar at hs
  rcases Nat.lt_or_ge n 0x80 with h1 | h1
  . rw [utf8EncodeChar, if_pos h1]
    rw [show ([n] ++ rest : List Nat) = n :: rest from rfl]
    conv_lhs => unfold utf8DecodeStrict
    rw [if_pos h1]
  . rcases Nat.lt_or_ge n 0x800 with h2 | h2
    . rw [utf8EncodeChar, if_neg (by omega), if_pos h2]
      rw [show ([0xC0 + n / 64, 0x80 + n % 64] ++ rest : List Nat)
          = (0xC0 + n / 64) :: (0x80 + n % 64) :: rest from rfl]
      conv_lhs => unfold utf8DecodeStrict
      rw [if_neg (by omega), if_neg (by omega), if_pos (by omega)]
      show (if isCont (0x80 + n % 64) then
          Option.map (fun t => ((0xC0 + n / 64 - 0xC0) * 64 + (0x80 + n % 64 - 0x80)) :: t)
            (utf8DecodeStrict rest)
        else none) = Option.map (fun t => n :: t) (utf8DecodeStrict rest)
      have hc : isCont (0x80 + n % 64) = true := by
        simp only [isCont, decide_eq_true_eq]
        omega
      rw [if_pos hc, show (0xC0 + n / 64 - 0xC0) * 64 + (0x80 + n % 64 - 0x80) = n from by omega]
    . rcases Nat.lt_or_ge n 0x10000 with h3 | h3
      . rw [utf8EncodeChar, if_neg (by omega), if_neg (by omega), if_pos h3]
        rw [show ([0xE0 + n / 4096, 0x80 + n / 64 % 64, 0x80 + n % 64] ++ rest : List Nat)
            = (0xE0 + n / 4096) :: (0x80 + n / 64 % 64) :: (0x80 + n % 64) :: rest from rfl]
        conv_lhs => unfold utf8DecodeStrict
        rw [if_neg (by omega), if_neg (by omega), if_neg (by omega), if_pos (by omega)]
        show (if cont3ok (0xE0 + n / 4096) (0x80 + n / 64 % 64) && isCont (0x80 + n % 64) then
            Option.map (fun t => ((0xE0 + n / 4096 - 0xE0) * 4096
              + (0x80 + n / 64 % 64 - 0x80) * 64 + (0x80 + n % 64 - 0x80)) :: t)
              (utf8DecodeStrict rest)
          else none) = Option.map (fun t => n :: t) (utf8DecodeStrict rest)
        have hc : (cont3ok (0xE0 + n / 4096) (0x80 + n / 64 % 64)
            && isCont (0x80 + n % 64)) = true := by
          unfold cont3ok
          split_ifs with hb hb2
          . simp only [isCont, Bool.and_eq_true, decide_eq_true_eq]
            omega
          . simp only [isCont, Bool.and_eq_true, decide_eq_true_eq]
            omega
          . simp only [isCont, Bool.and_eq_true, decide_eq_true_eq]
            omega
        rw [if_pos hc, show (0xE0 + n / 4096 - 0xE0) * 4096 + (0x80 + n / 64 % 64 - 0x80) * 64
            + (0x80 + n % 64 - 0x80) = n from by omega]
      . rw [utf8EncodeChar, if_neg (by omega), if_neg (by omega), if_neg (by omega)]
        rw [show ([0xF0 + n / 262144, 0x80 + n / 4096 % 64, 0x80 + n / 64 % 64, 0x80 + n % 64]
              ++ rest : List Nat)
            = (0xF0 + n / 262144) :: (0x80 + n / 4096 % 64) :: (0x80 + n / 64 % 64)
              :: (0x80 + n % 64) :: rest from rfl]
        conv_lhs => unfold utf8DecodeStrict
        rw [if_neg (by omega), if_neg (by omega), if_neg (by omega), if_neg (by omega),
          if_pos (by omega)]
        show (if cont4ok (0xF0 + n / 262144) (0x80 + n / 4096 % 64)
              && isCont (0x80 + n / 64 % 64) && isCont (0x80 + n % 64) then
            Option.map (fun t => ((0xF0 + n / 262144 - 0xF0) * 262144
              + (0x80 + n / 4096 % 64 - 0x80) * 4096 + (0x80 + n / 64 % 64 - 0x80) * 64
              + (0x80 + n % 64 - 0x80)) :: t)
              (utf8DecodeStrict rest)
          else none) = Option.map (fun t => n :: t) (utf8DecodeStrict rest)
        have hc : (cont4ok (0xF0 + n / 262144) (0x80 + n / 4096 % 64)
            && isCont (0x80 + n / 64 % 64) && isCont (0x80 + n % 64)) = true := by
          unfold cont4ok
          split_ifs with hb hb2
          . simp only [isCont, Bool.and_eq_true, decide_eq_true_eq]
            omega
          . simp only [isCont, Bool.and_eq_true, decide_eq_true_eq]
            omega
          . simp only [isCont, Bool.and_eq_true, decide_eq_true_eq]
            omega
        rw [if_pos hc, show (0xF0 + n / 262144 - 0xF0) * 262144
            + (0x80 + n / 4096 % 64 - 0x80) * 4096 + (0x80 + n / 64 % 64 - 0x80) * 64
            + (0x80 + n % 64 - 0x80) = n from by omega]

theorem utf8DecodeStrict_encode (ns : List Nat) (hs : ∀ n ∈ ns, isScalar n) :
    utf8DecodeStrict (utf8Encode ns) = some ns := by
  induction ns with
  | nil => rfl
  | cons n t ih =>
    rw [utf8Encode, utf8DecodeStrict_encodeChar n (utf8Encode t)
      (hs n (List.mem_cons_self _ _)), ih (fun m hm => hs m (List.mem_cons_of_mem _ hm))]
    rfl

theorem isCont_iff (b : Nat) : isCont b = true ↔ (0x80 ≤ b ∧ b < 0xC0) := by
  simp [isCont]

theorem cont3ok_iff (b b1 : Nat) : cont3ok b b1 = true ↔
    ((b = 0xE0 ∧ 0xA0 ≤ b1 ∧ b1 < 0xC0) ∨ (b = 0xED ∧ 0x80 ≤ b1 ∧ b1 < 0xA0) ∨
     (b ≠ 0xE0 ∧ b ≠ 0xED ∧ 0x80 ≤ b1 ∧ b1 < 0xC0)) := by
  unfold cont3ok
  split_ifs with he he2
  . simp [he]
  . simp [he, he2]
  . simp [isCont, he, he2]

theorem cont4ok_iff (b b1 : Nat) : cont4ok b b1 = true ↔
    ((b = 0xF0 ∧ 0x90 ≤ b1 ∧ b1 < 0xC0) ∨ (b = 0xF4 ∧ 0x80 ≤ b1 ∧ b1 < 0x90) ∨
     (b ≠ 0xF0 ∧ b ≠ 0xF4 ∧ 0x80 ≤ b1 ∧ b1 < 0xC0)) := by
  unfold cont4ok
  split_ifs with he he2
  . simp [he]
  . simp [he, he2]
  . simp [isCont, he, he2]

theorem utf8Encode_decode : ∀ (bs cs : List Nat),
    utf8DecodeStrict bs = some cs → utf8Encode cs = bs := by
  intro bs
  induction bs using utf8DecodeStrict.induct with
  | case1 =>
    intro cs h
    rw [utf8DecodeStrict.eq_def] at h
    simp at h
    subst h
    rfl
  | case2 n t h1 ih =>
    intro cs h
    rw [utf8DecodeStrict.eq_def] at h
    simp [h1] at h
    obtain ⟨a, ha, hcs⟩ := h
    subst hcs
    rw [utf8Encode, utf8EncodeChar, if_pos h1, ih a ha]
    rfl
  | case3 n t h1 h2 =>
    intro cs h
    rw [utf8DecodeStrict.eq_def] at h
    simp [h1, h2] at h
  | case4 n h1 h2 h3 b1 r hc ih =>
    intro cs h
    rw [utf8DecodeStrict.eq_def] at h
    simp [h1, h2, h3, hc] at h
    obtain ⟨a, ha, hcs⟩ := h
    subst hcs
    rw [isCont_iff] at hc
    rw [utf8Encode, ih a ha, utf8EncodeChar, if_neg (by omega), if_pos (by omega)]
    simp only [List.cons_append, List.nil_append, List.cons.injEq, and_true]
    constructor <;> omega
  | case5 n h1 h2 h3 b1 r hc =>
    intro cs h
    rw [utf8DecodeStrict.eq_def] at h
    simp [h1, h2, h3, hc] at h
  | case6 n h1 h2 h3 =>
    intro cs h
    rw [utf8DecodeStrict.eq_def] at h
    simp [h1, h2, h3] at h
  | case7 n h1 h2 h3 h4 =>
    intro cs h
    rw [utf8DecodeStrict.eq_def] at h
    simp [h1, h2, h3, h4] at h
  | case8 n h1 h2 h3 h4 b1 =>
    intro cs h
    rw [utf8DecodeStrict.eq_def] at h
    simp [h1, h2, h3, h4] at h
  | case9 n h1 h2 h3 h4 b1 b2 t hc ih =>
    intro cs h
    rw [utf8DecodeStrict.eq_def] at h
    simp [h1, h2, h3, h4, hc] at h
    obtain ⟨a, ha, hcs⟩ := h
    subst hcs
    rw [Bool.and_eq_true] at hc
    obtain ⟨hc3, hcb2⟩ := hc
    rw [cont3ok_iff] at hc3
    rw [isCont_iff] at hcb2
    rw [utf8Encode, ih a ha, utf8EncodeChar, if_neg (by omega), if_neg (by omega),
      if_pos (by omega)]
    simp only [List.cons_append, List.nil_append, List.cons.injEq, and_true]
    refine ⟨by omega, by omega, by omega⟩
  | case10 n h1 h2 h3 h4 b1 b2 t hc =>
    intro cs h
    rw [utf8DecodeStrict.eq_def] at h
    simp [h1, h2, h3, h4, hc] at h
  | case11 n h1 h2 h3 h4 h5 =>
    intro cs h
    rw [utf8DecodeStrict.eq_def] at h
    simp [h1, h2, h3, h4, h5] at h
  | case12 n h1 h2 h3 h4 h5 b1 =>
    intro cs h
    rw [utf8DecodeStrict.eq_def] at h
    simp [h1, h2, h3, h4, h5] at h
  | case13 n h1 h2 h3 h4 h5 b1 b2 =>
    intro cs h
    rw [utf8DecodeStrict.eq_def] at h
    simp [h1, h2, h3, h4, h5] at h
  | case14 n h1 h2 h3 h4 h5 b1 b2 b3 t hc ih =>
    intro cs h
    rw [utf8DecodeStrict.eq_def] at h
    simp [h1, h2, h3, h4, h5, hc] at h
    obtain ⟨a, ha, hcs⟩ := h
    subst hcs
    rw [Bool.and_eq_true, Bool.and_eq_true] at hc
    obtain ⟨⟨hc4, hcb2⟩, hcb3⟩ := hc
    rw [cont4ok_iff] at hc4
    rw [isCont_iff] at hcb2 hcb3
    rw [utf8Encode, ih a ha, utf8EncodeChar, if_neg (by omega), if_neg (by omega),
      if_neg (by omega)]
    simp only [List.cons_append, List.nil_append, List.cons.injEq, and_true]
    refine ⟨by omega, by omega, by omega, by omega⟩
  | case15 n h1 h2 h3 h4 h5 b1 b2 b3 t hc =>
    intro cs h
    rw [utf8DecodeStrict.eq_def] at h
    simp [h1, h2, h3, h4, h5, hc] at h
  | case16 n t h1 h2 h3 h4 h5 =>
    intro cs h
    rw [utf8DecodeStrict.eq_def] at h
    simp [h1, h2, h3, h4, h5] at h

theorem utf8Lossy_of_strict : ∀ (bs cs : List Nat),
    utf8DecodeStrict bs = some cs → utf8Lossy bs = cs := by
  intro bs
  induction bs using utf8DecodeStrict.induct with
  | case1 =>
    intro cs h
    rw [utf8DecodeStrict.eq_def] at h
    simp at h
    subst h
    rfl
  | case2 n t h1 ih =>
    intro cs h
    rw [utf8DecodeStrict.eq_def] at h
    simp [h1] at h
    obtain ⟨a, ha, hcs⟩ := h
    subst hcs
    rw [utf8Lossy.eq_def]
    simp [h1, ih a ha]
  | case3 n t h1 h2 =>
    intro cs h
    rw [utf8DecodeStrict.eq_def] at h
    simp [h1, h2] at h
  | case4 n h1 h2 h3 b1 r hc ih =>
    intro cs h
    rw [utf8DecodeStrict.eq_def] at h
    simp [h1, h2, h3, hc] at h
    obtain ⟨a, ha, hcs⟩ := h
    subst hcs
    rw [utf8Lossy.eq_def]
    simp [h1, h2, h3, hc, ih a ha]
  | case5 n h1 h2 h3 b1 r hc =>
    intro cs h
    rw [utf8DecodeStrict.eq_def] at h
    simp [h1, h2, h3, hc] at h
  | case6 n h1 h2 h3 =>
    intro cs h
    rw [utf8DecodeStrict.eq_def] at h
    simp [h1, h2, h3] at h
  | case7 n h1 h2 h3 h4 =>
    intro cs h
    rw [utf8DecodeStrict.eq_def] at h
    simp [h1, h2, h3, h4] at h
  | case8 n h1 h2 h3 h4 b1 =>
    intro cs h
    rw [utf8DecodeStrict.eq_def] at h
    simp [h1, h2, h3, h4] at h
  | case9 n h1 h2 h3 h4 b1 b2 t hc ih =>
    intro cs h
    rw [utf8DecodeStrict.eq_def] at h
    simp [h1, h2, h3, h4, hc] at h
    obtain ⟨a, ha, hcs⟩ := h
    subst hcs
    rw [Bool.and_eq_true] at hc
    obtain ⟨hc3, hcb2⟩ := hc
    rw [utf8Lossy.eq_def]
    simp [h1, h2, h3, h4, hc3, hcb2, ih a ha]
  | case10 n h1 h2 h3 h4 b1 b2 t hc =>
    intro cs h
    rw [utf8DecodeStrict.eq_def] at h
    simp [h1, h2, h3, h4, hc] at h
  | case11 n h1 h2 h3 h4 h5 =>
    intro cs h
    rw [utf8DecodeStrict.eq_def] at h
    simp [h1, h2, h3, h4, h5] at h
  | case12 n h1 h2 h3 h4 h5 b1 =>
    intro cs h
    rw [utf8DecodeStrict.eq_def] at h
    simp [h1, h2, h3, h4, h5] at h
  | case13 n h1 h2 h3 h4 h5 b1 b2 =>
    intro cs h
    rw [utf8DecodeStrict.eq_def] at h
    simp [h1, h2, h3, h4, h5] at h
  | case14 n h1 h2 h3 h4 h5 b1 b2 b3 t hc ih =>
    intro cs h
    rw [utf8DecodeStrict.eq_def] at h
    simp [h1, h2, h3, h4, h5, hc] at h
    obtain ⟨a, ha, hcs⟩ := h
    subst hcs
    rw [Bool.and_eq_true, Bool.and_eq_true] at hc
    obtain ⟨⟨hc4, hcb2⟩, hcb3⟩ := hc
    rw [utf8Lossy.eq_def]
    simp [h1, h2, h3, h4, h5, hc4, hcb2, hcb3, ih a ha]
  | case15 n h1 h2 h3 h4 h5 b1 b2 b3 t hc =>
    intro cs h
    rw [utf8DecodeStrict.eq_def] at h
    simp [h1, h2, h3, h4, h5, hc] at h
  | case16 n t h1 h2 h3 h4 h5 =>
    intro cs h
    rw [utf8DecodeStrict.eq_def] at h
    simp [h1, h2, h3, h4, h5] at h

set_option maxRecDepth 4000 in
theorem utf8Lossy_scalar : ∀ (bs : List Nat), ∀ m ∈ utf8Lossy bs, isScalar m := by
  intro bs
  induction bs using utf8Lossy.induct <;>
    intro m hm <;>
    rw [utf8Lossy.eq_def] at hm <;>
    simp [*] at hm <;>
    (try simp only [Bool.and_eq_true] at *) <;>
    (try simp only [cont3ok_iff, cont4ok_iff, isCont_iff] at *) <;>
    unfold isScalar <;>
    (first
      | omega
      | (rcases hm with rfl | hm
         . omega
         . solve_by_elim))

/-- Claim C9: whenever the handler returns a per-part tuple, the echoed
payload is the lossy UTF-8 decoding of the raw uploaded bytes, and the
re-encoded echoed payload equals the uploaded bytes exactly when the bytes
are valid UTF-8 — arbitrary binary payloads are not reproduced
byte-for-byte. -/
theorem response_payload_utf8_lossy :
    ∀ (container : String) (p : UploadPart) (w q : CallResult)
      (evs : List IEvent) (t : String × String × List Nat),
      processPart container p w q = (evs, Except.ok t) →
      t.2.2 = utf8Lossy p.payload ∧
      (utf8Encode (utf8Lossy p.payload) = p.payload ↔ (utf8DecodeStrict p.payload).isSome) := by
  intro container p w q evs t h
  constructor
  . by_cases hemp : p.payload.isEmpty
    . cases hf : p.filename with
      | none => simp [processPart, hemp, hf] at h
      | some f =>
        simp [processPart, hemp, hf] at h
        rw [← h.2]
    . cases hf : p.filename with
      | none => simp [processPart, hemp, hf] at h
      | some f =>
        cases q with
        | err => simp [processPart, hemp, hf] at h
        | ok =>
          simp [processPart, hemp, hf] at h
          rw [← h.2]
  . constructor
    . intro he
      have hdec := utf8DecodeStrict_encode (utf8Lossy p.payload) (utf8Lossy_scalar p.payload)
      rw [he] at hdec
      rw [hdec]
      rfl
    . intro hsome
      obtain ⟨cs, hcs⟩ := Option.isSome_iff_exists.mp hsome
      rw [utf8Lossy_of_strict p.payload cs hcs]
      exact utf8Encode_decode p.payload cs hcs

/-- Claim C9 (witness): the single byte 0xFF is echoed as U+FFFD and is not
reproduced byte-for-byte. -/
theorem response_payload_utf8_lossy_witness :
    ([0xFFFD] : List Nat) = utf8Lossy [255] ∧
    (utf8Encode (utf8Lossy [255]) = [255] ↔ (utf8DecodeStrict [255]).isSome) :=
  response_payload_utf8_lossy "images" ⟨"f", some "f.bin", [255]⟩ CallResult.ok CallResult.ok
    [IEvent.storeWrite "images" "f.bin" [255] "image/jpeg" CallResult.ok,
     IEvent.queuePublish (serializeImage ⟨"f.bin", "images"⟩) CallResult.ok]
    ("f", "f.bin", [0xFFFD]) rfl
